import Mathlib

/-!
Verification of the country-directory renderer (src/renderer.py) against its
specification.

Python strings are modelled as `List Char` (Python indexes and measures
strings by code point, exactly as `List Char` does).  Fallible code (list
indexing, which raises `IndexError` in Python) is modelled with `Option`.
The `LocationInfoDTO` input object (defined outside this repository, in
`collectors.models`) is modelled at field level: each formatter takes the
fields it reads, with nullable fields as `Option` and the news sequence as a
list of `NewsItem` records.  The external `prettytable` collaborator is
abstracted as the rendered table artifact string it produces, per the
specification's data contract.
-/

/-- Python single-character `str.split(sep)`: fragments between occurrences of
`sep`, keeping leading/trailing empty fragments.  `pySplit sep "" = [""]`,
exactly as in Python. -/
def pySplit (sep : Char) : List Char → List (List Char)
  | [] => [[]]
  | c :: cs =>
    let r := pySplit sep cs
    if c = sep then [] :: r
    else
      match r with
      | h :: t => (c :: h) :: t
      | [] => [[c]]

/-- The expression `table_string.split("\n")[0]` (renderer.py line 134): the first line of the
rendered table artifact.  `pySplit` never returns `[]`, so index 0 exists. -/
def firstLine (s : List Char) : List Char :=
  (pySplit '\n' s).headD []

/-- renderer.py lines 134-135:
`cols = table_string.split("\n")[0].split(corner_sep)[1:]` followed by
`column_lengths = [len(c) for c in cols]`. -/
def parseColumnWidths (s : List Char) (corner_sep : Char) : List Nat :=
  ((pySplit corner_sep (firstLine s)).drop 1).map List.length

/-- The border line of the rendered table artifact as the specification
describes it: a corner character, then for each column its run of horizontal
border characters followed by a corner character.  This is the canonical
first line of the artifact the external table library produces. -/
def mkBorderLine (ws : List Nat) : List Char :=
  '+' :: (ws.map (fun w => List.replicate w '-' ++ ['+'])).flatten

/-- renderer.py lines 141-146:
`sum([column_lengths[ci] for ci in range(col_index, span + col_index)])`.
Python evaluates the comprehension left to right and raises `IndexError` at
the first out-of-range index; `none` models that exception. -/
def sumWidths (column_lengths : List Nat) (start : Nat) : Nat → Option Nat
  | 0 => some 0
  | Nat.succ k =>
    (column_lengths[start]?).bind fun w =>
      (sumWidths column_lengths (start + 1) k).map fun s => w + s

/-- renderer.py lines 147-164, one loop iteration's pure part, given the sum
`w` of the spanned columns' widths: the combined group width is
`w + (span - 1)` (inner corner separators absorbed); the border segment is
that many row characters; the label segment is the label centred with
`(width - len(label)) // 2` spaces on the left (Python floor division) and the
remainder on the right.  Python `range(n)` of a negative `n` is empty, which
`Int.toNat` models. -/
def groupSegments (name : List Char) (span : Nat) (w : Nat) (row_char : Char) :
    List Char × List Char :=
  let group_col_length : Int := (w : Int) + ((span : Int) - 1)
  let left : Int := Int.fdiv (group_col_length - (name.length : Int)) 2
  let right : Int := group_col_length - (name.length : Int) - left
  (List.replicate group_col_length.toNat row_char,
    List.replicate left.toNat ' ' ++ name ++ List.replicate right.toNat ' ')

/-- renderer.py lines 139-166: the loop
`for i in range(len(column_groups_length))`.  Each iteration reads
`column_lengths[ci]` for `ci in [col_index, col_index + span)` (an exception,
`none`, if any index is out of range), reads `column_groups_names[i]`
(an exception if the name list is shorter), appends the two segments, and then
advances `col_index` by the group span TWICE (the statement
`col_index += column_groups_length[i]` appears verbatim on two consecutive
lines, 165 and 166, of the source). -/
def groupsLoop (column_lengths : List Nat) (corner_sep column_sep row_char : Char) :
    List (List Char) → List Nat → Nat → List Char → List Char →
      Option (List Char × List Char)
  | _, [], _, ub, gcn => some (ub, gcn)
  | names, span :: spans, col_index, ub, gcn =>
    (sumWidths column_lengths col_index span).bind fun w =>
      names.head?.bind fun name =>
        let seg := groupSegments name span w row_char
        groupsLoop column_lengths corner_sep column_sep row_char
          names.tail spans (col_index + 2 * span)
          (ub ++ corner_sep :: seg.1) (gcn ++ column_sep :: seg.2)

/-- renderer.py lines 110-170, `_format_table_groups`: parse the column widths
from the artifact's first border line, run the group loop, close the border
with a trailing corner and the label line with a trailing column separator,
and join the two lines with a newline.  The separator parameters keep the
source's defaults. -/
def formatTableGroups (table_string : List Char) (column_groups_names : List (List Char))
    (column_groups_length : List Nat) (corner_sep : Char := '+')
    (column_sep : Char := '|') (row_char : Char := '-') : Option (List Char) :=
  let column_lengths := parseColumnWidths table_string corner_sep
  (groupsLoop column_lengths corner_sep column_sep row_char
      column_groups_names column_groups_length 0 [] []).map
    fun p => (p.1 ++ [corner_sep]) ++ '\n' :: (p.2 ++ [column_sep])

/-- renderer.py lines 96-101: the scan
`for i in range(mid_pos, len(country_name)): if country_name[i] == " ": break`
returning the index of the first space character at or after `mid`, or `none`
(the sentinel `-1` in the source) when the loop finds none.  Every scanned
index is in range, so the lookup is total. -/
def findSpace (l : List Char) (mid : Nat) : Option Nat :=
  (List.range' mid (l.length - mid)).find? fun i => l[i]? == some ' '

/-- renderer.py lines 88-108, `split_country_name`: scan from
`len(country_name) // 2` for the first space; if none, return the name
unchanged, else return `name[:p] + "\n" + name[p+1:]`. -/
def splitCountryName (l : List Char) : List Char :=
  match findSpace l (l.length / 2) with
  | none => l
  | some p => l.take p ++ '\n' :: l.drop (p + 1)

/-- Replacing a line-break character by a single space, the rejoin direction
of the split round trip. -/
def nlToSpace (c : Char) : Char :=
  if c = '\n' then ' ' else c

/-- Python truthiness of a nullable integer field, as used by the guards
`if self.location_info.capital_location.timezone :` etc.: `None` and `0` are
falsy, every other integer is truthy. -/
def pyTruthy : Option Int → Bool
  | none => false
  | some n => n != 0

/-- Days-since-epoch to calendar date, the civil-from-days algorithm that
`datetime.datetime.utcfromtimestamp` implements (proleptic Gregorian
calendar): returns `(year, month, day)`. -/
def civilFromDays (z0 : Int) : Int × Nat × Nat :=
  let z : Int := z0 + 719468
  let era : Int := Int.fdiv z 146097
  let doe : Nat := (z - era * 146097).toNat
  let yoe : Nat := (doe - doe / 1460 + doe / 36524 - doe / 146096) / 365
  let y : Int := (yoe : Int) + era * 400
  let doy : Nat := doe - (365 * yoe + yoe / 4 - yoe / 100)
  let mp : Nat := (5 * doy + 2) / 153
  let d : Nat := doy - (153 * mp + 2) / 5 + 1
  let m : Nat := if mp < 10 then mp + 3 else mp - 9
  (if m ≤ 2 then y + 1 else y, m, d)

/-- A number rendered as exactly two decimal digits, as the zero-padded
fields of `strftime` and the two forced fraction digits of a quantized
`Decimal` render it. -/
def pad2 (n : Nat) : List Char :=
  [Nat.digitChar (n / 10 % 10), Nat.digitChar (n % 10)]

/-- A year rendered as four decimal digits, as `strftime("%Y")` renders every
year of the claims' range (years 0-9999; the renderer only ever sees unix
times of the current era). -/
def pad4 (n : Nat) : List Char :=
  [Nat.digitChar (n / 1000 % 10), Nat.digitChar (n / 100 % 10),
    Nat.digitChar (n / 10 % 10), Nat.digitChar (n % 10)]

/-- renderer.py lines 185-187:
`datetime.datetime.utcfromtimestamp(t).strftime("%Y-%m-%dT%H:%M:%SZ")`.
The timestamp is split into days and seconds-of-day with floor division (the
semantics of `utcfromtimestamp`), the date computed by `civilFromDays`. -/
def formatUnixTime (t : Int) : List Char :=
  let days : Int := Int.fdiv t 86400
  let secs : Nat := (t - days * 86400).toNat
  let ymd := civilFromDays days
  pad4 ymd.1.toNat ++ '-' :: pad2 ymd.2.1 ++ '-' :: pad2 ymd.2.2
    ++ 'T' :: pad2 (secs / 3600) ++ ':' :: pad2 (secs % 3600 / 60)
    ++ ':' :: pad2 (secs % 60) ++ ['Z']

/-- renderer.py lines 172-189, `_format_time`: the guard is
`if timezone and current_time_UTC :` -- Python truthiness on both nullable
fields -- and on success the local unix time is
`int(current_time_UTC) + int(timezone)`. -/
def formatTime (timezone current_time_UTC : Option Int) : List Char :=
  if pyTruthy timezone && pyTruthy current_time_UTC then
    formatUnixTime (current_time_UTC.getD 0 + timezone.getD 0)
  else "Информации о времени нет".data

/-- renderer.py lines 206-218, `_format_timezone`: guard
`if self.location_info.capital_location.timezone :` (truthiness), then
`int(timezone) // seconds_in_hour` -- Python floor division, `Int.fdiv` --
rendered as `f"UTC {timezone_utc}"`. -/
def formatTimezone (timezone : Option Int) : List Char :=
  if pyTruthy timezone then
    "UTC ".data ++ (toString (Int.fdiv (timezone.getD 0) 3600)).data
  else "Информации о часовом поясе нет".data

/-- Python `sep.join(items)`: empty for no items, otherwise the items with
`sep` between consecutive ones. -/
def pyJoin (sep : List Char) : List (List Char) → List Char
  | [] => []
  | [x] => x
  | x :: y :: rest => x ++ sep ++ pyJoin sep (y :: rest)

/-- renderer.py lines 220-230, `_format_languages`:
`",\n".join(f"{item.name} ({item.native_name})" for item in languages)`.
A language is the pair (name, native name). -/
def formatLanguages (languages : List (List Char × List Char)) : List Char :=
  pyJoin ",\n".data
    (languages.map fun item => item.1 ++ " (".data ++ item.2 ++ [')'])

/-- The call `Decimal(q).quantize(Decimal(".01"), rounding=ROUND_HALF_UP)` as an
integer count of hundredths: round to the nearest hundredth, ties away from
zero.  The rate is an exact numeric value (modelled from the spec: the DTO
supplies a numeric rate; `Decimal` arithmetic on it is exact decimal
arithmetic). -/
def halfUpCents (q : ℚ) : Int :=
  if 0 ≤ q then ⌊100 * q + 1 / 2⌋ else -⌊100 * (-q) + 1 / 2⌋

/-- The `str` of a two-fraction-digit `Decimal` holding `n` hundredths: optional
sign, the integer part, a point, and exactly two fraction digits. -/
def renderCents (n : Int) : List Char :=
  (if n < 0 then ['-'] else []) ++ (toString (n.natAbs / 100)).data
    ++ '.' :: pad2 (n.natAbs % 100)

/-- The rendered rate `R` of one currency line: quantize to two decimal
digits with round-half-up, then print. -/
def quantize2HalfUp (q : ℚ) : List Char :=
  renderCents (halfUpCents q)

/-- renderer.py lines 242-252, `_format_currency_rates`:
`",\n".join(f"{currency} = {Decimal(rates).quantize(exp=Decimal(".01"), rounding=ROUND_HALF_UP)}" ...)`
over the `currency_rates` items in insertion order. -/
def formatCurrencyRates (currency_rates : List (List Char × ℚ)) : List Char :=
  pyJoin ",\n".data
    (currency_rates.map fun p => p.1 ++ " = ".data ++ quantize2HalfUp p.2)

/-- One item of the DTO's news sequence (collectors.models; modelled from the
spec: source name, published timestamp, author, title, URL, each a string). -/
structure NewsItem where
  source_name : List Char
  published_at : List Char
  author : List Char
  title : List Char
  url : List Char

/-- renderer.py lines 200-203, the two appends of one news block, including
the source's literal label text. -/
def newsBlock (n : NewsItem) : List Char :=
  "Источнк: ".data ++ n.source_name ++ '\n' :: n.published_at
    ++ '\n' :: n.author ++ ':' :: (n.title ++ "\nURL:".data ++ n.url ++ "\n\n".data)

/-- renderer.py lines 191-204, `_format_news`: start from the empty string
and, when the sequence is non-empty, append every item's block (for the empty
sequence the guard and the plain concatenation agree: the result is empty). -/
def formatNews (news : List NewsItem) : List Char :=
  (news.map newsBlock).flatten

/-- The fixed group labels of the renderer's call site, renderer.py line 79. -/
def tableGroupNames : List (List Char) :=
  ["Страна".data, "Столица".data, "Валюта".data, "Погода".data]

/-- The fixed group spans of the renderer's call site, renderer.py line 79. -/
def tableGroupSpans : List Nat :=
  [5, 4, 1, 4]

/-- renderer.py lines 36-86, `_format_as_table`, after the row is built: call
`_format_table_groups(table.get_string(), [...], [5, 4, 1, 4])` and return
`[groups, table.get_string(), "Последние новости:", _format_news()]`.
Modelled from the spec: the external `PrettyTable` collaborator is abstracted
as the `table_string` artifact it returns; an uncaught exception in the
grouping step is `none`. -/
def formatAsTable (news : List NewsItem) (table_string : List Char) :
    Option (List (List Char)) :=
  (formatTableGroups table_string tableGroupNames tableGroupSpans).map
    fun groups => [groups, table_string, "Последние новости:".data, formatNews news]

/-- The canonical 14-column artifact border in which every column renders to
width 10, the scenario input of the specification. -/
def border14 : List Char :=
  mkBorderLine (List.replicate 14 10)

/-! ## Properties of the Python split -/

theorem pySplit_ne_nil (sep : Char) (s : List Char) : pySplit sep s ≠ [] := by
  induction s with
  | nil => simp [pySplit]
  | cons c cs ih =>
    simp only [pySplit]
    by_cases h : c = sep
    · simp [h]
    · simp only [if_neg h]
      cases hr : pySplit sep cs with
      | nil => simp
      | cons a t => simp

theorem pySplit_append_sep (sep : Char) (a rest : List Char) (h : sep ∉ a) :
    pySplit sep (a ++ sep :: rest) = a :: pySplit sep rest := by
  induction a with
  | nil => simp [pySplit]
  | cons c a' ih =>
    have hc : c ≠ sep := fun hc => h (by simp [hc])
    have ha' : sep ∉ a' := fun hm => h (by simp [hm])
    simp only [List.cons_append, pySplit, if_neg hc, List.append_eq, ih ha']

theorem pySplit_of_not_mem (sep : Char) (s : List Char) (h : sep ∉ s) :
    pySplit sep s = [s] := by
  induction s with
  | nil => rfl
  | cons c cs ih =>
    have hc : c ≠ sep := fun hc => h (by simp [hc])
    have hcs : sep ∉ cs := fun hm => h (by simp [hm])
    simp only [pySplit, if_neg hc, ih hcs]

theorem firstLine_of_not_mem (s : List Char) (h : '\n' ∉ s) : firstLine s = s := by
  rw [firstLine, pySplit_of_not_mem _ _ h]; rfl

theorem firstLine_append (a rest : List Char) (h : '\n' ∉ a) :
    firstLine (a ++ '\n' :: rest) = a := by
  rw [firstLine, pySplit_append_sep _ _ _ h]; rfl

/-! ## Parsing the canonical border line -/

theorem mem_mkBorderLine {c : Char} {ws : List Nat} (h : c ∈ mkBorderLine ws) :
    c = '+' ∨ c = '-' := by
  simp only [mkBorderLine, List.mem_cons, List.mem_flatten, List.mem_map] at h
  rcases h with h | ⟨l, ⟨w, _, rfl⟩, hc⟩
  · exact Or.inl h
  · simp only [List.mem_append, List.mem_replicate, List.mem_singleton] at hc
    rcases hc with ⟨_, rfl⟩ | rfl
    · exact Or.inr rfl
    · exact Or.inl rfl

theorem newline_not_mem_mkBorderLine (ws : List Nat) : '\n' ∉ mkBorderLine ws := by
  intro h
  rcases mem_mkBorderLine h with h | h <;> exact absurd h (by decide)

theorem pySplit_border_body (ws : List Nat) :
    pySplit '+' ((ws.map fun w => List.replicate w '-' ++ ['+']).flatten) =
      (ws.map fun w => List.replicate w '-') ++ [[]] := by
  induction ws with
  | nil => rfl
  | cons w ws ih =>
    have hrepl : '+' ∉ List.replicate w '-' := by
      intro h
      exact absurd ((List.mem_replicate.mp h).2) (by decide)
    calc pySplit '+' (((w :: ws).map fun w => List.replicate w '-' ++ ['+']).flatten)
        = pySplit '+' (List.replicate w '-'
            ++ '+' :: (ws.map fun w => List.replicate w '-' ++ ['+']).flatten) := by
          simp [List.flatten_cons, List.append_assoc]
      _ = List.replicate w '-'
            :: pySplit '+' ((ws.map fun w => List.replicate w '-' ++ ['+']).flatten) :=
          pySplit_append_sep '+' _ _ hrepl
      _ = (List.replicate w '-') :: ((ws.map fun w => List.replicate w '-') ++ [[]]) := by
          rw [ih]
      _ = ((w :: ws).map fun w => List.replicate w '-') ++ [[]] := by simp

theorem parse_mkBorderLine_fragments (first : List Char) (ws : List Nat)
    (hfl : first = mkBorderLine ws) :
    ((pySplit '+' first).drop 1).map List.length = ws ++ [0] := by
  subst hfl
  rw [mkBorderLine]
  have : pySplit '+' ('+' :: (ws.map fun w => List.replicate w '-' ++ ['+']).flatten) =
      [] :: pySplit '+' ((ws.map fun w => List.replicate w '-' ++ ['+']).flatten) := by
    simp [pySplit]
  rw [this, pySplit_border_body, List.drop_one, List.tail_cons, List.map_append,
    List.map_map]
  simp [Function.comp_def]

/-- Claim C2 (amended): for every table artifact whose first line is the
canonical bordered line of some width list, the border-parsing step of
`_format_table_groups` recovers the lengths of ALL fragments after the
leading empty one: the per-column character widths in order, followed by one
trailing empty fragment of width `0` contributed by the text after the final
corner character.  For the 14-column artifact that is 15 values, not exactly
14 as the claim states. -/
theorem claim_c2_border_widths :
    ∀ (ws : List Nat) (rest : List Char),
      parseColumnWidths (mkBorderLine ws ++ '\n' :: rest) '+' = ws ++ [0] ∧
      parseColumnWidths (mkBorderLine ws) '+' = ws ++ [0] := by
  intro ws rest
  constructor
  · rw [parseColumnWidths, firstLine_append _ _ (newline_not_mem_mkBorderLine ws)]
    exact parse_mkBorderLine_fragments _ ws rfl
  · rw [parseColumnWidths, firstLine_of_not_mem _ (newline_not_mem_mkBorderLine ws)]
    exact parse_mkBorderLine_fragments _ ws rfl

set_option maxRecDepth 8192 in
/-- Claim C2 counterexample: on the concrete 14-column border in which every
column renders to width 10, the parsing step recovers 15 fragment widths (the
14 column widths and a trailing 0), not exactly 14. -/
theorem claim_c2_cex :
    parseColumnWidths border14 '+' = List.replicate 14 10 ++ [0] ∧
    (parseColumnWidths border14 '+').length = 15 ∧
    ¬ (parseColumnWidths border14 '+').length = 14 := by
  refine ⟨by decide, by decide, by decide⟩

set_option maxRecDepth 8192 in
/-- Claim C1 (code bug): over the canonical 14-column width-10 artifact with
the fixed groups `[Страна:5, Столица:4, Валюта:1, Погода:4]`, the first
group's combined width is indeed `5 * 10 + 4 = 54` and the label `Страна`
receives 24 spaces of left padding, exactly as the claim computes; but the
loop advances the column cursor by `2 * span` per group (the advance
statement is duplicated on source lines 165-166), so the third group reads
fragment index 18 of the 15-fragment width list and the whole call raises
`IndexError` (`none`) instead of producing the band.  The claim's
"advances the column cursor by exactly span_i" is the documented contract
(the docstring requires the spans to sum to the column count, which is only
coherent with a single advance), and the code as written crashes on its own
fixed call site. -/
theorem claim_c1_group_band_crash :
    sumWidths (parseColumnWidths border14 '+') 0 5 = some 50 ∧
    groupSegments "Страна".data 5 50 '-' =
      (List.replicate 54 '-',
        List.replicate 24 ' ' ++ "Страна".data ++ List.replicate 24 ' ') ∧
    formatTableGroups border14 tableGroupNames tableGroupSpans = none := by
  refine ⟨by decide, by decide, by decide⟩

/-! ## The group loop: when it succeeds and when it raises -/

theorem opt_bind_none {α β : Type} (x : Option α) :
    (x.bind fun _ => (none : Option β)) = none := by
  cases x <;> rfl

theorem sumWidths_isSome (L : List Nat) :
    ∀ (span start : Nat), start + span ≤ L.length →
      ∃ w, sumWidths L start span = some w := by
  intro span
  induction span with
  | zero => exact fun start _ => ⟨0, rfl⟩
  | succ k ih =>
    intro start h
    have hs : start < L.length := by omega
    obtain ⟨w, hw⟩ := ih (start + 1) (by omega)
    refine ⟨L.get ⟨start, hs⟩ + w, ?_⟩
    simp [sumWidths, List.getElem?_eq_getElem hs, hw]

theorem sumWidths_none_of_oob (L : List Nat) (start span : Nat)
    (h : L.length ≤ start) (hspan : 0 < span) :
    sumWidths L start span = none := by
  cases span with
  | zero => omega
  | succ k => simp [sumWidths, List.getElem?_eq_none h]

theorem groupsLoop_some (L : List Nat) (corner_sep column_sep row_char : Char) :
    ∀ (spans : List Nat) (names : List (List Char)) (ci : Nat) (ub gcn : List Char),
      spans.length ≤ names.length →
      (∀ i, i < spans.length →
        ci + 2 * (spans.take i).sum + spans.getD i 0 ≤ L.length) →
      ∃ r, groupsLoop L corner_sep column_sep row_char names spans ci ub gcn = some r := by
  intro spans
  induction spans with
  | nil => exact fun names ci ub gcn _ _ => ⟨(ub, gcn), rfl⟩
  | cons span spans ih =>
    intro names ci ub gcn hlen hb
    cases names with
    | nil => simp at hlen
    | cons n ns =>
      have h0 := hb 0 (by simp)
      simp only [List.take_zero, List.sum_nil, List.getD_cons_zero, Nat.mul_zero,
        Nat.add_zero] at h0
      obtain ⟨w, hw⟩ := sumWidths_isSome L span ci h0
      have hb' : ∀ i, i < spans.length →
          (ci + 2 * span) + 2 * (spans.take i).sum + spans.getD i 0 ≤ L.length := by
        intro i hi
        have := hb (i + 1) (by simpa using Nat.succ_lt_succ hi)
        simp only [List.take_succ_cons, List.sum_cons, List.getD_cons_succ] at this
        omega
      obtain ⟨r, hr⟩ := ih ns (ci + 2 * span)
        (ub ++ corner_sep :: (groupSegments n span w row_char).1)
        (gcn ++ column_sep :: (groupSegments n span w row_char).2)
        (by simpa using hlen) hb'
      exact ⟨r, by simp [groupsLoop, hw, hr]⟩

/-- Claim C6 (amended): the renderer performs no configuration validation at
all.  Whenever there are at least as many labels as spans and every column
index the (doubled-cursor) loop touches lies inside the parsed fragment list,
`_format_table_groups` produces a band -- even when the spans do not sum to
the grid's column count and even when a label is wider than its combined
spanned width (the negative padding collapses to zero-length padding and the
label line silently misaligns).  A configuration mismatch surfaces, if at
all, only as an `IndexError` from reading past the fragment list, never as a
refusal checked up front. -/
theorem claim_c6_no_validation (table_string : List Char)
    (names : List (List Char)) (spans : List Nat)
    (hnames : spans.length ≤ names.length)
    (hbound : ∀ i, i < spans.length →
      2 * (spans.take i).sum + spans.getD i 0 ≤
        (parseColumnWidths table_string '+').length) :
    ∃ s, formatTableGroups table_string names spans = some s := by
  obtain ⟨r, hr⟩ := groupsLoop_some (parseColumnWidths table_string '+') '+' '|' '-'
    spans names 0 [] [] hnames (by simpa using hbound)
  refine ⟨(r.1 ++ ['+']) ++ '\n' :: (r.2 ++ ['|']), ?_⟩
  simp only [formatTableGroups]
  rw [hr]
  rfl

/-- Claim C6 witness: a concrete in-bounds configuration on which the
renderer produces output. -/
theorem claim_c6_witness :
    ∃ s, formatTableGroups "+--+--+--+".data [['A']] [1] = some s :=
  claim_c6_no_validation "+--+--+--+".data [['A']] [1] (by decide) (by decide)

/-- Claim C6 counterexample: the renderer does NOT refuse.  First conjunct
block: a single group of span 1 over a 3-column grid (span total 1 ≠ 3
columns; the parsed fragment list has 4 entries) still yields a band, one
covering only the first column.  Second conjunct block: a label of width 5
over a combined width of 2 is not rejected either; the negative padding
collapses and the band line is emitted wider than the border, silently
misaligned. -/
theorem claim_c6_cex :
    (formatTableGroups "+--+--+--+".data [['A']] [1] = some "+--+\n|A |".data ∧
      [1].sum = 1 ∧ (parseColumnWidths "+--+--+--+".data '+').length = 4) ∧
    (formatTableGroups "+--+".data ["ABCDE".data] [1] = some "+--+\n|ABCDE|".data ∧
      "ABCDE".data.length = 5) := by
  refine ⟨⟨by decide, by decide, by decide⟩, ⟨by decide, by decide⟩⟩

theorem formatTableGroups_call_site_none (table_string : List Char)
    (h : (parseColumnWidths table_string '+').length ≤ 18) :
    formatTableGroups table_string tableGroupNames tableGroupSpans = none := by
  have h18 : sumWidths (parseColumnWidths table_string '+') 18 1 = none :=
    sumWidths_none_of_oob _ _ _ h (by norm_num)
  rw [formatTableGroups]
  simp [tableGroupNames, tableGroupSpans, groupsLoop, h18, opt_bind_none]

/-- Claim C10 (code bug): for a DTO with an empty news sequence,
`_format_news` does return the empty string without failing, exactly as
claimed; but the assembled report never contains the news header and digest
blocate, because `_format_as_table` always raises before building the list:
its fixed call to `_format_table_groups` over any artifact whose border
parses to at most 18 fragments (the real 14-column artifact parses to 15)
hits the doubled cursor advance and reads past the fragment list.  The
claimed assembly `[groups, table, "Последние новости:", news]` is the
source's literal list (lines 81-86) and is clearly the intent; the crash is
the same duplicated-line slip recorded for claim C1. -/
theorem claim_c10_empty_news (table_string : List Char)
    (hcols : (parseColumnWidths table_string '+').length ≤ 18) :
    formatNews [] = [] ∧ formatAsTable [] table_string = none := by
  refine ⟨rfl, ?_⟩
  rw [formatAsTable, formatTableGroups_call_site_none table_string hcols]
  rfl

set_option maxRecDepth 8192 in
/-- Claim C10 witness: the empty-news DTO over the canonical 14-column
artifact. -/
theorem claim_c10_witness :
    formatNews [] = [] ∧ formatAsTable [] border14 = none :=
  claim_c10_empty_news border14 (by decide)

/-! ## The country-name split scan -/

theorem find?_range'_first (pred : Nat → Bool) (s n : Nat) :
    (∃ p, (List.range' s n).find? pred = some p ∧ s ≤ p ∧ p < s + n ∧ pred p = true
      ∧ ∀ j, s ≤ j → j < p → pred j = false)
    ∨ ((List.range' s n).find? pred = none ∧ ∀ j, s ≤ j → j < s + n → pred j = false) := by
  induction n generalizing s with
  | zero =>
    right
    exact ⟨rfl, fun j h1 h2 => absurd h2 (by omega)⟩
  | succ n ih =>
    rw [List.range'_succ]
    by_cases hp : pred s
    · exact Or.inl ⟨s, by simp [List.find?, hp], le_refl s, by omega, hp,
        fun j h1 h2 => absurd h2 (by omega)⟩
    · rcases ih (s + 1) with ⟨p, hfind, h1, h2, h3, h4⟩ | ⟨hfind, hall⟩
      · left
        refine ⟨p, by simp [List.find?, hp, hfind], by omega, by omega, h3, ?_⟩
        intro j hj1 hj2
        rcases Nat.eq_or_lt_of_le hj1 with rfl | hlt
        · simpa using hp
        · exact h4 j hlt hj2
      · right
        refine ⟨by simp [List.find?, hp, hfind], ?_⟩
        intro j hj1 hj2
        rcases Nat.eq_or_lt_of_le hj1 with rfl | hlt
        · simpa using hp
        · exact hall j hlt (by omega)

theorem findSpace_spec (l : List Char) (mid : Nat) :
    (∃ p, findSpace l mid = some p ∧ mid ≤ p ∧ p < l.length ∧ l[p]? = some ' '
      ∧ ∀ j, mid ≤ j → j < p → l[j]? ≠ some ' ')
    ∨ (findSpace l mid = none ∧ ∀ j, mid ≤ j → l[j]? ≠ some ' ') := by
  rcases find?_range'_first (fun i => l[i]? == some ' ') mid (l.length - mid) with
    ⟨p, hf, h1, h2, h3, h4⟩ | ⟨hf, hall⟩
  · left
    refine ⟨p, hf, h1, by omega, by simpa using h3, ?_⟩
    intro j hj1 hj2
    have := h4 j hj1 hj2
    simpa using this
  · right
    refine ⟨hf, ?_⟩
    intro j hj
    by_cases hjl : j < l.length
    · have := hall j hj (by omega)
      simpa using this
    · rw [List.getElem?_eq_none (by omega)]
      simp

/-- Claim C8 (amended): `split_country_name` scans from index
`floor(len / 2)` to the end for the first SPACE character (`" "`, not an
arbitrary whitespace character as the claim says -- the source compares
`country_name[i] == " "`); if one is found at index `p` it returns
`name[0:p] + "\n" + name[p+1:]`, and if no space exists at or after the
midpoint it returns the name unchanged. -/
theorem claim_c8_split_scan (l : List Char) :
    (∃ p, l.length / 2 ≤ p ∧ l[p]? = some ' '
        ∧ (∀ j, l.length / 2 ≤ j → j < p → l[j]? ≠ some ' ')
        ∧ splitCountryName l = l.take p ++ '\n' :: l.drop (p + 1))
    ∨ ((∀ j, l.length / 2 ≤ j → l[j]? ≠ some ' ')
        ∧ splitCountryName l = l) := by
  rcases findSpace_spec l (l.length / 2) with ⟨p, hf, h1, _, h3, h4⟩ | ⟨hf, hall⟩
  · exact Or.inl ⟨p, h1, h3, h4, by simp [splitCountryName, hf]⟩
  · exact Or.inr ⟨hall, by simp [splitCountryName, hf]⟩

/-- Claim C8 counterexample: the name `"aaaa\tbb"` (length 7, midpoint 3)
has its first whitespace character at or after the midpoint at index 4 (a
tab), so the claim requires the split `"aaaa\nbb"`; the code scans only for
the space character and returns the name unchanged. -/
theorem claim_c8_cex :
    Char.isWhitespace '\t' = true ∧
    "aaaa\tbb".data.length / 2 ≤ 4 ∧
    "aaaa\tbb".data[4]? = some '\t' ∧
    (∀ j, j < 4 → "aaaa\tbb".data[j]?.any Char.isWhitespace = false) ∧
    splitCountryName "aaaa\tbb".data = "aaaa\tbb".data ∧
    splitCountryName "aaaa\tbb".data
      ≠ "aaaa\tbb".data.take 4 ++ '\n' :: "aaaa\tbb".data.drop 5 := by
  refine ⟨by decide, by decide, by decide, by decide, by decide, by decide⟩

/-- Claim C9: for every country name with a whitespace character at or after
its midpoint, `split_country_name` followed by replacing the inserted line
break with a single space recovers the original string exactly: either no
line break was inserted and the output already IS the original (this happens
when the only whitespace at or after the midpoint is not the space character
the scan looks for), or the break was inserted at the position `p` of the
first space and putting a space back at `p` yields the original. -/
theorem claim_c9_split_roundtrip (l : List Char)
    (_hws : ∃ i, l.length / 2 ≤ i ∧ ∃ c, l[i]? = some c ∧ c.isWhitespace = true) :
    splitCountryName l = l ∨
    ∃ p, p < l.length ∧ l[p]? = some ' '
      ∧ splitCountryName l = l.take p ++ '\n' :: l.drop (p + 1)
      ∧ l.take p ++ ' ' :: l.drop (p + 1) = l := by
  rcases findSpace_spec l (l.length / 2) with ⟨p, hf, _, h2, h3, _⟩ | ⟨hf, _⟩
  · right
    refine ⟨p, h2, h3, by simp [splitCountryName, hf], ?_⟩
    have hval : l.get ⟨p, h2⟩ = ' ' := by
      rw [List.getElem?_eq_getElem h2] at h3
      simpa [List.get_eq_getElem] using h3
    calc l.take p ++ ' ' :: l.drop (p + 1)
        = l.take p ++ l.get ⟨p, h2⟩ :: l.drop (p + 1) := by rw [hval]
      _ = l.take p ++ l.drop p := by
          rw [List.get_eq_getElem, List.getElem_cons_drop]
      _ = l := List.take_append_drop p l
  · exact Or.inl (by simp [splitCountryName, hf])

/-- Claim C9 witness: the name `"United States"` has a space at index 6, its
midpoint; the split inserts a line break there and replacing it with a space
recovers the name. -/
theorem claim_c9_witness :
    splitCountryName "United States".data = "United States".data ∨
    ∃ p, p < "United States".data.length ∧ "United States".data[p]? = some ' '
      ∧ splitCountryName "United States".data =
          "United States".data.take p ++ '\n' :: "United States".data.drop (p + 1)
      ∧ "United States".data.take p ++ ' ' :: "United States".data.drop (p + 1) =
          "United States".data :=
  claim_c9_split_roundtrip "United States".data ⟨6, by decide, ' ', by decide, by decide⟩

/-! ## Capital time and timezone formatting -/

/-- Claim C3 (amended): `_format_time` returns
`currentUTC + timezoneOffsetSeconds` formatted as `YYYY-MM-DDTHH:MM:SSZ` when
both fields are present AND non-zero; it returns the literal fallback
`"Информации о времени нет"` when either field is missing OR equal to `0`
(the guard is Python truthiness, so the integer `0` is treated like `None`,
contrary to the claim's "including the value 0"); it never raises (the
function is total). -/
theorem claim_c3_time_guard :
    (∀ n m : Int, n ≠ 0 → m ≠ 0 →
      formatTime (some n) (some m) = formatUnixTime (m + n)) ∧
    (∀ t, formatTime none t = "Информации о времени нет".data) ∧
    (∀ tz, formatTime tz none = "Информации о времени нет".data) ∧
    (∀ t, formatTime (some 0) t = "Информации о времени нет".data) ∧
    (∀ tz, formatTime tz (some 0) = "Информации о времени нет".data) ∧
    formatTime (some 3600) (some 1700000000) = "2023-11-14T23:13:20Z".data := by
  refine ⟨?_, ?_, ?_, ?_, ?_, by decide⟩
  · intro n m hn hm
    simp [formatTime, pyTruthy, hn, hm]
  · intro t
    rfl
  · intro tz
    simp [formatTime, pyTruthy, Bool.and_false]
  · intro t
    rfl
  · intro tz
    simp [formatTime, pyTruthy, Bool.and_false]

/-- Claim C3 counterexample: a DTO whose timezone offset is present with
value `0` (the capital lies in the UTC zone) and whose current time is
present.  The claim requires the formatted instant; the code returns the
fallback text, which differs from the formatted instant. -/
theorem claim_c3_cex :
    formatTime (some 0) (some 1700000000) = "Информации о времени нет".data ∧
    formatUnixTime (1700000000 + 0) ≠ "Информации о времени нет".data := by
  refine ⟨by decide, by decide⟩

/-- Claim C4 (amended): `_format_timezone` returns `"UTC {n}"` when the
offset is present AND non-zero, where `n` is the offset floor-divided by
3600 (the characterization `3600 * n ≤ offset < 3600 * (n + 1)` below);
when the offset is absent OR equal to `0` it returns exactly
`"Информации о часовом поясе нет"` (the guard is Python truthiness, so a
present offset of `0` falls to the fallback, contrary to the claim's
"including the value 0"). -/
theorem claim_c4_timezone_guard :
    (∀ n : Int, n ≠ 0 → ∃ k : Int,
      formatTimezone (some n) = "UTC ".data ++ (toString k).data ∧
      3600 * k ≤ n ∧ n < 3600 * (k + 1)) ∧
    formatTimezone none = "Информации о часовом поясе нет".data ∧
    formatTimezone (some 0) = "Информации о часовом поясе нет".data ∧
    formatTimezone (some 10800) = "UTC 3".data ∧
    formatTimezone (some (-16200)) = "UTC -5".data := by
  refine ⟨?_, rfl, rfl, by decide, by decide⟩
  intro n hn
  refine ⟨Int.fdiv n 3600, by simp [formatTimezone, pyTruthy, hn], ?_, ?_⟩ <;>
    rw [Int.fdiv_eq_ediv n (by norm_num)] <;> omega

/-- Claim C4 counterexample: a present offset of `0` renders the fallback
text, not `"UTC 0"` as the claim requires. -/
theorem claim_c4_cex :
    formatTimezone (some 0) = "Информации о часовом поясе нет".data ∧
    "Информации о часовом поясе нет".data ≠ "UTC 0".data := by
  refine ⟨by decide, by decide⟩

/-! ## Join semantics, languages and currency rates -/

theorem pyJoin_eq_intercalate (sep : List Char) (xs : List (List Char)) :
    pyJoin sep xs = List.intercalate sep xs := by
  induction xs with
  | nil => rfl
  | cons x xs ih =>
    cases xs with
    | nil => simp [pyJoin, List.intercalate, List.intersperse]
    | cons y ys =>
      rw [pyJoin, ih, List.intercalate, List.intercalate,
        List.intersperse_cons_cons, List.flatten_cons, List.flatten_cons]
      simp [List.append_assoc]

/-- Claim C7 (amended): the language cell renders each ordered language as
`"Name (NativeName)"` preserving input order, but the entries are joined
with `",\n"` -- a comma and then the line break -- not with the bare newline
the claim states; the empty sequence yields the empty string. -/
theorem claim_c7_languages :
    (∀ languages : List (List Char × List Char),
      formatLanguages languages =
        List.intercalate ",\n".data
          (languages.map fun item => item.1 ++ " (".data ++ item.2 ++ [')'])) ∧
    formatLanguages [] = [] ∧
    formatLanguages [("English".data, "English".data), ("French".data, "français".data)]
      = "English (English),\nFrench (français)".data := by
  refine ⟨fun languages => pyJoin_eq_intercalate _ _, rfl, by decide⟩

/-- Claim C7 counterexample: with two languages the rendered cell contains a
comma before the line break, so it differs from the newline-joined string the
claim specifies. -/
theorem claim_c7_cex :
    formatLanguages [("English".data, "English".data), ("French".data, "français".data)]
      = "English (English),\nFrench (français)".data ∧
    formatLanguages [("English".data, "English".data), ("French".data, "français".data)]
      ≠ "English (English)\nFrench (français)".data := by
  refine ⟨by decide, by decide⟩

theorem digitChar_isDigit {k : Nat} (h : k < 10) : (Nat.digitChar k).isDigit = true := by
  interval_cases k <;> decide

theorem halfUpCents_nonneg {q : ℚ} (hq : 0 ≤ q) : 0 ≤ halfUpCents q := by
  rw [halfUpCents, if_pos hq, Int.le_floor]
  positivity

/-- Claim C5 (amended): the currency cell renders each `(code, rate)` pair in
insertion order as `"CODE = R"`, where `R` carries exactly two digits after
the decimal point and is the round-half-up quantization of the rate (the
characterization `cents - 1/2 ≤ 100 * rate < cents + 1/2` below: ties land on
the higher cent), and the pairs are joined with `",\n"` -- a comma and then
the line break -- not with the bare newline the claim states.  The claim's
scenarios hold: `2.005` renders as `2.01` and `{"USD": 73.2551}` renders as
`"USD = 73.26"`. -/
theorem claim_c5_currency :
    (∀ currency_rates : List (List Char × ℚ),
      formatCurrencyRates currency_rates =
        List.intercalate ",\n".data
          (currency_rates.map fun p => p.1 ++ " = ".data ++ quantize2HalfUp p.2)) ∧
    (∀ q : ℚ, 0 ≤ q →
      (∃ intpart d1 d2, quantize2HalfUp q = intpart ++ '.' :: [d1, d2] ∧
        d1.isDigit = true ∧ d2.isDigit = true) ∧
      ((halfUpCents q : ℚ) - 1 / 2 ≤ 100 * q ∧ 100 * q < (halfUpCents q : ℚ) + 1 / 2)) ∧
    quantize2HalfUp (2005 / 1000) = "2.01".data ∧
    quantize2HalfUp (732551 / 10000) = "73.26".data ∧
    formatCurrencyRates [("USD".data, 732551 / 10000)] = "USD = 73.26".data := by
  have h201 : halfUpCents (2005 / 1000) = 201 := by
    norm_num [halfUpCents, Rat.floor_def]
  have h7326 : halfUpCents (732551 / 10000) = 7326 := by
    norm_num [halfUpCents, Rat.floor_def]
  have hq2 : quantize2HalfUp (732551 / 10000) = "73.26".data := by
    rw [quantize2HalfUp, h7326]; decide
  refine ⟨fun currency_rates => pyJoin_eq_intercalate _ _, ?_, ?_, hq2, ?_⟩
  · intro q hq
    have h0 : 0 ≤ halfUpCents q := halfUpCents_nonneg hq
    constructor
    · refine ⟨(toString ((halfUpCents q).natAbs / 100)).data,
        Nat.digitChar ((halfUpCents q).natAbs % 100 / 10 % 10),
        Nat.digitChar ((halfUpCents q).natAbs % 100 % 10), ?_, ?_, ?_⟩
      · rw [quantize2HalfUp, renderCents, if_neg (by omega), pad2]
        simp
      · exact digitChar_isDigit (Nat.mod_lt _ (by norm_num))
      · exact digitChar_isDigit (Nat.mod_lt _ (by norm_num))
    · rw [halfUpCents, if_pos hq]
      have hle : ((⌊100 * q + 1 / 2⌋ : ℤ) : ℚ) ≤ 100 * q + 1 / 2 := Int.floor_le _
      have hlt : 100 * q + 1 / 2 < (⌊100 * q + 1 / 2⌋ : ℤ) + 1 := Int.lt_floor_add_one _
      constructor
      · linarith
      · push_cast at hlt ⊢
        linarith
  · rw [quantize2HalfUp, h201]; decide
  · rw [formatCurrencyRates]
    simp only [List.map_cons, List.map_nil, pyJoin, hq2]
    decide

/-- Claim C5 counterexample: with two rates the rendered cell joins the pairs
with a comma followed by the line break, so it differs from the purely
newline-joined string the claim specifies. -/
theorem claim_c5_cex :
    formatCurrencyRates [("USD".data, 1), ("EUR".data, 2)] =
      "USD = 1.00,\nEUR = 2.00".data ∧
    formatCurrencyRates [("USD".data, 1), ("EUR".data, 2)] ≠
      "USD = 1.00\nEUR = 2.00".data := by
  have h1 : halfUpCents 1 = 100 := by norm_num [halfUpCents, Rat.floor_def]
  have h2 : halfUpCents 2 = 200 := by norm_num [halfUpCents, Rat.floor_def]
  constructor <;>
    · rw [formatCurrencyRates]
      simp only [List.map_cons, List.map_nil, pyJoin, quantize2HalfUp, h1, h2]
      decide
